import Mathlib

/-!
Verification development for the `recommend` package.

A shallow embedding of the candidate recommendation pipeline
(`recommend/util.go`, `recommend/recommend.go`, `recommend/filter.go`,
`recommend/sort.go`, `main.go`) together with theorems about it.

Modelling conventions
* Go slices are Lean lists; a nil slice and an empty slice are both `[]`.
* `int64` candidate identifiers and the `int` size argument are `Int`; the
  only arithmetic on them is comparison, `min` and the remainder by two, so
  no wrap-around can occur.
* A Go `(value, error)` pair is an `Except ε α`; where a call can also stop
  with a run-time panic the result is an `Outcome`, with the constructor
  `Outcome.fault` for the panic.
* Predicates, filter rules and sorters are pure functions of their arguments.
* `Shuffle` permutes a slice in place with a random permutation; the
  embedding takes the outcome of every shuffle as an argument.
* A decorator sees the recommender it wraps as a function from the requested
  count to the outcome of the call; `RetryRecommend`, which calls it several
  times, sees one such function per call number.
* The store behind `MemoryRecommend` is the result of its one `ZAdd` call; the
  clock read for the scores is an argument. The calls a decorator makes are
  returned next to its outcome by the `run` functions.
-/

namespace recommend

/-! ## Data model (`sort.go`, `filter.go`) -/

/-- Go `type Predicate[T any] func(item T) bool`. -/
abbrev Predicate (T : Type) := T → Bool

/-- Go `type NamedPredicate[T any] struct`: a diagnostic name and the ordered predicates. -/
structure NamedPredicate (T : Type) where
  Name : String
  Predicates : List (Predicate T)

/-! ## Grouping (`util.go`) -/

/-- The `used` map of `GroupsExclusive`: index to flag, absent keys read as `false`. -/
abbrev Used := Nat → Bool

/-- Go `used[i] = true`. -/
def Used.set (used : Used) (i : Nat) : Used := fun j => if j = i then true else used j

/-- Inner loop of `GroupsExclusive` (`for i, elem := range slice`), started at
index `i` on the remaining elements with the current `used` map and `result`. -/
def GroupsExclusive.inner {T : Type} (filter : Predicate T) :
    List T → Nat → Used → List T → List T × Used
  | [], _, used, result => (result, used)
  | elem :: rest, i, used, result =>
    if !used i && filter elem then
      GroupsExclusive.inner filter rest (i + 1) (used.set i) (result ++ [elem])
    else
      GroupsExclusive.inner filter rest (i + 1) used result

/-- Outer loop of `GroupsExclusive` (`for _, filter := range filters`). -/
def GroupsExclusive.outer {T : Type} (slice : List T) :
    List (Predicate T) → Used → List (List T) → List (List T)
  | [], _, results => results
  | filter :: filters, used, results =>
    let r := GroupsExclusive.inner filter slice 0 used []
    GroupsExclusive.outer slice filters r.2 (results ++ [r.1])

/-- Go `GroupsExclusive`: one group per predicate; an element goes to the group
of the first predicate that accepts it while its index is still unused. -/
def GroupsExclusive {T : Type} (slice : List T) (namedPredicate : NamedPredicate T) :
    List (List T) :=
  GroupsExclusive.outer slice namedPredicate.Predicates (fun _ => false) []

/-- Loop `for _, subResult := range subResults` of `GroupsHierarchical`:
appends the non-empty sub-results to `finalResults`. -/
def GroupsHierarchical.appendSub {T : Type} :
    List (List T) → List (List T) → List (List T)
  | [], finalResults => finalResults
  | subResult :: subResults, finalResults =>
    if subResult.length = 0 then
      GroupsHierarchical.appendSub subResults finalResults
    else
      GroupsHierarchical.appendSub subResults (finalResults ++ [subResult])

/-- Loop `for _, group := range firstGroups` of `GroupsHierarchical`, with the
recursive call on the remaining layers passed as `recurse`. -/
def GroupsHierarchical.loop {T : Type} (recurse : List T → List (List T)) :
    List (List T) → List (List T) → List (List T)
  | [], finalResults => finalResults
  | group :: firstGroups, finalResults =>
    GroupsHierarchical.loop recurse firstGroups
      (GroupsHierarchical.appendSub (recurse group) finalResults)

/-- Go `GroupsHierarchical`: no layer returns the input as one group, one
layer returns the groups of `GroupsExclusive` as they are, more layers
partition every first-layer group by the remaining layers and keep the
non-empty results. -/
def GroupsHierarchical {T : Type} : List (NamedPredicate T) → List T → List (List T)
  | [], slice => [slice]
  | [filterGroup], slice => GroupsExclusive slice filterGroup
  | filterGroup :: next :: more, slice =>
    GroupsHierarchical.loop (GroupsHierarchical (next :: more))
      (GroupsExclusive slice filterGroup) []

/-- Go `Flat`: concatenation of the groups in order. -/
def Flat {T : Type} (slices : List (List T)) : List T :=
  slices.foldl (fun result slice => result ++ slice) []

/-! ## Collaborators and the base engine (`filter.go`, `sort.go`, `recommend.go`) -/

/-- Result of a call that returns a value, returns a Go error, or stops with a
run-time panic. -/
inductive Outcome (ε α : Type) where
  | ok (value : α)
  | err (e : ε)
  | fault
  deriving DecidableEq

/-- Go `FilterRule.Filter(userId, anchorIdList)`. -/
abbrev FilterRule (ε : Type) := Int → List Int → Except ε (List Int)

/-- Go `Sorter.Sort(anchors)`; a successful call yields the predicate set itself. -/
abbrev Sorter (ε : Type) := List Int → Except ε (NamedPredicate Int)

/-- Go `Recaller.Recall()`: the result of the one call made by `Fetch`. -/
abbrev Recaller (ε : Type) := Except ε (List Int)

/-- Go `type Recommend struct` (the unused `rClient` field is left out). -/
structure Recommend (ε : Type) where
  UserId : Int
  Recaller : Recaller ε
  Rules : List (FilterRule ε)
  Sorts : List (Sorter ε)
  PostSorts : List (Sorter ε)

/-- Go `NewRecommend`. -/
def NewRecommend {ε : Type} (userid : Int) (recaller : Recaller ε)
    (filterRules : List (FilterRule ε)) (sorters postSorters : List (Sorter ε)) : Recommend ε :=
  { UserId := userid, Recaller := recaller, Rules := filterRules, Sorts := sorters,
    PostSorts := postSorters }

/-- Loop `for _, rule := range m.Rules` of `Recommend.Filter` on the current `result`. -/
def Recommend.Filter.loop {ε : Type} (userId : Int) :
    List (FilterRule ε) → List Int → Except ε (List Int)
  | [], result => .ok result
  | rule :: rules, result =>
    match rule userId result with
    | .error err => .error err
    | .ok result =>
      if result.length = 0 then .ok [] else Recommend.Filter.loop userId rules result

/-- Go `(m *Recommend) Filter`. -/
def Recommend.Filter {ε : Type} (m : Recommend ε) (anchors : List Int) : Except ε (List Int) :=
  Recommend.Filter.loop m.UserId m.Rules anchors

/-- Loop `for _, sorter := range ...` of `GroupSort` and `PostSort`: the predicate
sets of the sorters, each applied to the same `anchors`, up to the first error. -/
def collectPredicates {ε : Type} (anchors : List Int) :
    List (Sorter ε) → List (NamedPredicate Int) → Except ε (List (NamedPredicate Int))
  | [], predicates => .ok predicates
  | sorter :: sorters, predicates =>
    match sorter anchors with
    | .error err => .error err
    | .ok predicate => collectPredicates anchors sorters (predicates ++ [predicate])

/-- Go `(m *Recommend) GroupSort`. -/
def Recommend.GroupSort {ε : Type} (m : Recommend ε) (anchors : List Int) :
    Except ε (List (List Int)) :=
  match collectPredicates anchors m.Sorts [] with
  | .error err => .error err
  | .ok results => .ok (GroupsHierarchical results anchors)

/-- Go `(m *Recommend) PostSort`. -/
def Recommend.PostSort {ε : Type} (m : Recommend ε) (anchors : List Int) :
    Except ε (List (List Int)) :=
  match collectPredicates anchors m.PostSorts [] with
  | .error err => .error err
  | .ok results => .ok (GroupsHierarchical results anchors)

/-- Outcome of the calls of Go `Shuffle` made by one `Fetch`: `recalled l` is the
order left by `Shuffle(anchors)` on `l`, and `group i l` the order left by
`Shuffle(groupSortedAnchors[i])` on `l`. -/
structure Shuffles where
  recalled : List Int → List Int
  group : Nat → List Int → List Int

/-- Every shuffle outcome is a rearrangement of the slice it was applied to. -/
def Shuffles.Valid (sh : Shuffles) : Prop :=
  (∀ l, (sh.recalled l).Perm l) ∧ ∀ i l, (sh.group i l).Perm l

/-- The shuffle outcome that leaves every slice in its order. -/
def Shuffles.identity : Shuffles := { recalled := fun l => l, group := fun _ l => l }

/-- Loop `for i := range groupSortedAnchors` of `Fetch`, from index `i` on. -/
def shuffleGroups (sh : Shuffles) : Nat → List (List Int) → List (List Int)
  | _, [] => []
  | i, group :: groups => sh.group i group :: shuffleGroups sh (i + 1) groups

/-- Go `flat[:min(size, len(flat))]`: a negative upper bound panics. -/
def sliceTo {ε : Type} (flat : List Int) (size : Int) : Outcome ε (List Int) :=
  if min size (flat.length : Int) < 0 then .fault
  else .ok (flat.take (min size (flat.length : Int)).toNat)

/-- Go `(m *Recommend) Fetch`. -/
def Recommend.Fetch {ε : Type} (m : Recommend ε) (sh : Shuffles) (size : Int) :
    Outcome ε (List Int) :=
  match m.Recaller with
  | .error err => .err err
  | .ok anchors =>
    if anchors.length = 0 then .ok []
    else
      match m.Filter (sh.recalled anchors) with
      | .error err => .err err
      | .ok filteredAnchors =>
        if filteredAnchors.length = 0 then .ok []
        else
          match m.GroupSort filteredAnchors with
          | .error err => .err err
          | .ok groupSortedAnchors =>
            match m.PostSort (Flat (shuffleGroups sh 0 groupSortedAnchors)) with
            | .error err => .err err
            | .ok postSortedAnchors => sliceTo (Flat postSortedAnchors) size

/-! ## The composition root (`main.go`) -/

/-- Go `isOddUser.Filter`: keeps the identifiers with `id%2 == 1` (truncated remainder). -/
def isOddUser {ε : Type} : FilterRule ε :=
  fun _ anchorIdList => .ok (anchorIdList.filter (fun id => Int.tmod id 2 == 1))

/-- The predicate set built by Go `BiggerGroup.Sort`. -/
def BiggerGroup.predicate : NamedPredicate Int :=
  { Name := "BiggerGroup"
    Predicates := [fun item => decide (item > 100),
      fun item => decide (item > 0) && decide (item < 50),
      fun item => decide (item < 0)] }

/-- Go `BiggerGroup.Sort`. -/
def BiggerGroup {ε : Type} : Sorter ε :=
  fun _ => .ok BiggerGroup.predicate

/-- Go `MatchRecaller.Recall`. -/
def MatchRecaller {ε : Type} : Recaller ε :=
  .ok [1, 2, 3, 4, 5, 6, 7, 8, 9, 10, 101, 201, 301, 401, 500, 601, 700, 800, 991, 1000]

/-- Go `Builder.Build` on the zero-valued `Builder` of `main`. -/
def Builder.Build {ε : Type} : Recommend ε :=
  NewRecommend 0 MatchRecaller [isOddUser] [BiggerGroup] []

/-! ## Decorators (`recommend.go`) -/

/-- Go `type NoAnchorErrRecommend struct`: the embedded base engine and the
designated error, a Go `error` value, `none` when it is nil. -/
structure NoAnchorErrRecommend (ε : Type) where
  Recommend : Recommend ε
  err : Option ε

/-- Go `NewNoAnchorErrRecommend`. -/
def NewNoAnchorErrRecommend {ε : Type} (userid : Int) (recaller : Recaller ε)
    (filterRules : List (FilterRule ε)) (sorters postSorters : List (Sorter ε))
    (err : Option ε) : NoAnchorErrRecommend ε :=
  { Recommend :=
      { UserId := userid, Recaller := recaller, Rules := filterRules, Sorts := sorters,
        PostSorts := postSorters }
    err := err }

/-- Go `(f *NoAnchorErrRecommend) Fetch`. -/
def NoAnchorErrRecommend.Fetch {ε : Type} (f : NoAnchorErrRecommend ε) (sh : Shuffles)
    (size : Int) : Outcome ε (List Int) :=
  match f.Recommend.Fetch sh size with
  | .fault => .fault
  | .err err => .err err
  | .ok fetch =>
    if fetch.length = 0 then
      match f.err with
      | some err => .err err
      | none => .ok []
    else .ok fetch

/-- One call of Go `Recommender.Fetch(size)` on a wrapped recommender, as a
decorator sees it. -/
abbrev Fetcher (ε : Type) := Int → Outcome ε (List Int)

/-- Go `redis.Z`: the score is the Unix second count read from the clock. -/
structure Z where
  Score : Int
  Member : Int
  deriving DecidableEq

/-- The store client behind `redisCli`: `ZAdd(ctx, key, members...).Err()`,
`none` for a nil error. -/
abbrev StoreClient (ε : Type) := String → List Z → Option ε

/-- Go `type MemoryRecommend struct`; `redisCli` is a pointer, `none` when nil. -/
structure MemoryRecommend (ε : Type) where
  Recommender : Fetcher ε
  redisCli : Option (StoreClient ε)
  MemoryKey : String

/-- Go `NewMemoryRecommend`. -/
def NewMemoryRecommend {ε : Type} (recommdner : Fetcher ε) : MemoryRecommend ε :=
  { Recommender := recommdner, redisCli := none, MemoryKey := "recommender:memory" }

/-- Loop `for _, anchorId := range result` of `MemoryRecommend.Fetch`; `now i` is
the clock reading taken for the member at index `i`. -/
def MemoryRecommend.members (now : Nat → Int) : List Int → Nat → List Z → List Z
  | [], _, zsetMembers => zsetMembers
  | anchorId :: result, i, zsetMembers =>
    MemoryRecommend.members now result (i + 1)
      (zsetMembers ++ [{ Score := now i, Member := anchorId }])

/-- Go `(m *MemoryRecommend) Fetch`, returning with the outcome the list of the
`ZAdd` calls made on the store client, as key and members. Calling `ZAdd` through
a nil `redisCli` is a nil pointer dereference. -/
def MemoryRecommend.run {ε : Type} (m : MemoryRecommend ε) (now : Nat → Int) (size : Int) :
    Outcome ε (List Int) × List (String × List Z) :=
  match m.Recommender size with
  | .fault => (.fault, [])
  | .err err => (.err err, [])
  | .ok result =>
    if (MemoryRecommend.members now result 0 []).length = 0 then (.ok result, [])
    else
      match m.redisCli with
      | none => (.fault, [])
      | some cli =>
        match cli m.MemoryKey (MemoryRecommend.members now result 0 []) with
        | some err => (.err err, [(m.MemoryKey, MemoryRecommend.members now result 0 [])])
        | none => (.ok result, [(m.MemoryKey, MemoryRecommend.members now result 0 [])])

/-- Go `(m *MemoryRecommend) Fetch`: the returned pair. -/
def MemoryRecommend.Fetch {ε : Type} (m : MemoryRecommend ε) (now : Nat → Int) (size : Int) :
    Outcome ε (List Int) :=
  (m.run now size).1

/-- Go `type RetryRecommend struct`; `Recommender i` is the wrapped recommender
as it answers the call number `i` (from 0) made by one `Fetch`. -/
structure RetryRecommend (ε : Type) where
  Recommender : Nat → Fetcher ε
  retryCount : Int

/-- Go `NewRetryRecommend`. -/
def NewRetryRecommend {ε : Type} (recommender : Nat → Fetcher ε) (retryCount : Int) :
    RetryRecommend ε :=
  { Recommender := recommender, retryCount := retryCount }

/-- Go `if len(fetch) > 0 { result = append(result, fetch...) }`. -/
def RetryRecommend.append (result fetch : List Int) : List Int :=
  if fetch.length > 0 then result ++ fetch else result

/-- Loop `for i := 0; i < r.retryCount; i++` of `RetryRecommend.Fetch` with
`remaining = retryCount - i` iterations left; `calls` lists the counts requested
from the wrapped recommender so far. -/
def RetryRecommend.loop {ε : Type} (r : RetryRecommend ε) (size : Int) :
    Nat → Nat → Int → List Int → List Int → Outcome ε (List Int) × List Int
  | 0, _, _, result, calls => (.ok result, calls)
  | remaining + 1, i, fetchSize, result, calls =>
    match r.Recommender i fetchSize with
    | .fault => (.fault, calls ++ [fetchSize])
    | .err err => (.err err, calls ++ [fetchSize])
    | .ok fetch =>
      if size ≤ ((RetryRecommend.append result fetch).length : Int) then
        (.ok (RetryRecommend.append result fetch), calls ++ [fetchSize])
      else if size - ((RetryRecommend.append result fetch).length : Int) ≤ 0 then
        (.ok (RetryRecommend.append result fetch), calls ++ [fetchSize])
      else
        RetryRecommend.loop r size remaining (i + 1)
          (size - ((RetryRecommend.append result fetch).length : Int))
          (RetryRecommend.append result fetch) (calls ++ [fetchSize])

/-- Go `(r *RetryRecommend) Fetch`, returning with the outcome the counts
requested from the wrapped recommender, in call order. -/
def RetryRecommend.run {ε : Type} (r : RetryRecommend ε) (size : Int) :
    Outcome ε (List Int) × List Int :=
  RetryRecommend.loop r size r.retryCount.toNat 0 size [] []

/-- Go `(r *RetryRecommend) Fetch`: the returned pair. -/
def RetryRecommend.Fetch {ε : Type} (r : RetryRecommend ε) (size : Int) : Outcome ε (List Int) :=
  (r.run size).1

/-! ## Notions used to state the properties -/

/-- Groups by first match, by value: the elements not yet claimed according to
`u` that satisfy the next predicate, for each predicate in turn. -/
def firstMatchGroups {T : Type} (slice : List T) : (T → Bool) → List (Predicate T) → List (List T)
  | _, [] => []
  | u, p :: ps =>
    slice.filter (fun x => !u x && p x) :: firstMatchGroups slice (fun x => u x || p x) ps

/-- Index of the first predicate of the layer that accepts `x`, if any. -/
def firstMatch {T : Type} : List (Predicate T) → T → Option Nat
  | [], _ => none
  | p :: ps, x => if p x then some 0 else (firstMatch ps x).map (· + 1)

/-- Tier tuple of `x`: the index of its first matching predicate in every layer,
or `none` when some layer has no predicate accepting `x`. -/
def tierTuple {T : Type} : List (NamedPredicate T) → T → Option (List Nat)
  | [], _ => some []
  | s :: rest, x =>
    match firstMatch s.Predicates x, tierTuple rest x with
    | some i, some t => some (i :: t)
    | _, _ => none

/-- Element `x` has a strictly smaller tier tuple than `y`, in lexicographic
order; both survive every layer. -/
def TierBefore {T : Type} (sets : List (NamedPredicate T)) (x y : T) : Prop :=
  ∃ tx ty, tierTuple sets x = some tx ∧ tierTuple sets y = some ty ∧ List.Lex (· < ·) tx ty

/-- The list handed to the rule that follows `rules` when every rule of `rules`,
applied in order from `input`, succeeds with a non-empty result. -/
def reachedInput {ε : Type} (userId : Int) : List (FilterRule ε) → List Int → Option (List Int)
  | [], input => some input
  | rule :: rules, input =>
    match rule userId input with
    | .error _ => none
    | .ok result => if result.length = 0 then none else reachedInput userId rules result

/-- Error of the first sorter, in order, that fails on `anchors`. -/
def firstFailure {ε : Type} (anchors : List Int) : List (Sorter ε) → Option ε
  | [] => none
  | sorter :: sorters =>
    match sorter anchors with
    | .error err => some err
    | .ok _ => firstFailure anchors sorters

/-- Accumulator of the retry decorator after its first `j` calls: the results of
the calls in call order, call `i` being asked for `size` minus what calls before
it returned. -/
def accumulated {ε : Type} (r : RetryRecommend ε) (size : Int) : Nat → List Int
  | 0 => []
  | j + 1 =>
    accumulated r size j ++
      (match r.Recommender j (size - ((accumulated r size j).length : Int)) with
        | .ok fetch => fetch
        | _ => [])

/-- Shortfall before call `j` of the retry decorator: `size` minus the number of
items returned by the calls before it. -/
def shortfall {ε : Type} (r : RetryRecommend ε) (size : Int) (j : Nat) : Int :=
  size - ((accumulated r size j).length : Int)

/-! # Theorems -/

/-! ## `GroupsExclusive` -/

theorem Used.set_self (used : Used) (i : Nat) : used.set i i = true := by
  simp [Used.set]

theorem Used.set_of_ne (used : Used) {i j : Nat} (h : j ≠ i) : used.set i j = used j := by
  simp [Used.set, h]

theorem GroupsExclusive.inner_frame {T : Type} (filter : Predicate T) (rest : List T) :
    ∀ (i : Nat) (used : Used) (result : List T) (j : Nat), j < i →
      (GroupsExclusive.inner filter rest i used result).2 j = used j := by
  induction rest with
  | nil => intro i used result j _; rfl
  | cons elem rest ih =>
    intro i used result j hj
    unfold GroupsExclusive.inner
    split
    · rw [ih (i + 1) _ _ j (by omega), Used.set_of_ne used (by omega)]
    · exact ih (i + 1) _ _ j (by omega)

theorem GroupsExclusive.inner_spec {T : Type} (filter : Predicate T) (u : T → Bool)
    (rest : List T) :
    ∀ (i : Nat) (used : Used) (result : List T),
      (∀ k x, rest[k]? = some x → used (i + k) = u x) →
      (GroupsExclusive.inner filter rest i used result).1
          = result ++ rest.filter (fun x => !u x && filter x) ∧
      ∀ k x, rest[k]? = some x →
        (GroupsExclusive.inner filter rest i used result).2 (i + k) = (u x || filter x) := by
  induction rest with
  | nil =>
    intro i used result _
    refine ⟨by simp [GroupsExclusive.inner], ?_⟩
    intro k x hk
    simp at hk
  | cons elem rest ih =>
    intro i used result hused
    have h0 : used i = u elem := by simpa using hused 0 elem (by simp)
    have hrest : ∀ (used2 : Used), (∀ j, i < j → used2 j = used j) →
        ∀ k x, rest[k]? = some x → used2 (i + 1 + k) = u x := by
      intro used2 h2 k x hk
      rw [h2 _ (by omega)]
      have := hused (k + 1) x (by simpa using hk)
      rwa [show i + (k + 1) = i + 1 + k by omega] at this
    unfold GroupsExclusive.inner
    by_cases hc : (!used i && filter elem) = true
    · rw [if_pos hc]
      have hs := ih (i + 1) (used.set i) (result ++ [elem])
        (hrest _ (fun j hj => Used.set_of_ne used (by omega)))
      have hc2 : (!u elem && filter elem) = true := by rw [← h0]; exact hc
      refine ⟨?_, ?_⟩
      · rw [hs.1, List.filter_cons, if_pos hc2]; simp
      · intro k x hk
        cases k with
        | zero =>
          simp at hk
          subst hk
          show (GroupsExclusive.inner filter rest (i + 1) _ _).2 i = _
          rw [GroupsExclusive.inner_frame filter rest (i + 1) _ _ i (by omega), Used.set_self]
          simp at hc2
          simp [hc2.2]
        | succ k =>
          have := hs.2 k x (by simpa using hk)
          rwa [show i + 1 + k = i + (k + 1) by omega] at this
    · rw [if_neg hc]
      have hs := ih (i + 1) used result (hrest _ (fun j _ => rfl))
      have hc2 : ¬ (!u elem && filter elem) = true := by rw [← h0]; exact hc
      refine ⟨?_, ?_⟩
      · rw [hs.1, List.filter_cons, if_neg hc2]
      · intro k x hk
        cases k with
        | zero =>
          simp at hk
          subst hk
          show (GroupsExclusive.inner filter rest (i + 1) _ _).2 i = _
          rw [GroupsExclusive.inner_frame filter rest (i + 1) _ _ i (by omega), h0]
          revert hc2
          cases u elem <;> cases filter elem <;> simp
        | succ k =>
          have := hs.2 k x (by simpa using hk)
          rwa [show i + 1 + k = i + (k + 1) by omega] at this

theorem GroupsExclusive.outer_spec {T : Type} (slice : List T) (filters : List (Predicate T)) :
    ∀ (u : T → Bool) (used : Used) (results : List (List T)),
      (∀ k x, slice[k]? = some x → used k = u x) →
      GroupsExclusive.outer slice filters used results
        = results ++ firstMatchGroups slice u filters := by
  induction filters with
  | nil => intro u used results _; simp [GroupsExclusive.outer, firstMatchGroups]
  | cons p ps ih =>
    intro u used results hused
    have hs := GroupsExclusive.inner_spec p u slice 0 used []
      (fun k x hk => by simpa using hused k x hk)
    unfold GroupsExclusive.outer
    simp only []
    rw [ih (fun x => u x || p x) _ _ (fun k x hk => by simpa using hs.2 k x hk), hs.1]
    simp [firstMatchGroups]

theorem GroupsExclusive_eq {T : Type} (slice : List T) (np : NamedPredicate T) :
    GroupsExclusive slice np = firstMatchGroups slice (fun _ => false) np.Predicates := by
  unfold GroupsExclusive
  rw [GroupsExclusive.outer_spec slice np.Predicates (fun _ => false) _ _ (fun _ _ _ => rfl)]
  simp

theorem firstMatchGroups_length {T : Type} (slice : List T) (ps : List (Predicate T)) :
    ∀ u, (firstMatchGroups slice u ps).length = ps.length := by
  induction ps with
  | nil => intro u; rfl
  | cons p ps ih => intro u; simp [firstMatchGroups, ih]

theorem firstMatchGroups_getElem? {T : Type} (slice : List T) (ps : List (Predicate T)) :
    ∀ (u : T → Bool) (i : Nat) (p : Predicate T), ps[i]? = some p →
      (firstMatchGroups slice u ps)[i]?
        = some (slice.filter (fun x => p x && !u x && !(ps.take i).any (fun q => q x))) := by
  induction ps with
  | nil => intro u i p h; simp at h
  | cons q ps ih =>
    intro u i p h
    cases i with
    | zero =>
      simp at h
      subst h
      simp [firstMatchGroups, Bool.and_comm]
    | succ i =>
      simp at h
      simp only [firstMatchGroups, List.getElem?_cons_succ, List.take_succ_cons, List.any_cons]
      rw [ih _ i p h]
      congr 2
      funext x
      cases p x <;> cases u x <;> cases q x <;> simp

theorem firstMatch_isSome {T : Type} (ps : List (Predicate T)) (x : T) :
    (firstMatch ps x).isSome = ps.any (fun p => p x) := by
  induction ps with
  | nil => rfl
  | cons p ps ih =>
    simp only [firstMatch, List.any_cons]
    cases hp : p x <;> simp [ih]

theorem firstMatchGroups_eq_map {T : Type} (slice : List T) (ps : List (Predicate T)) :
    ∀ u : T → Bool, firstMatchGroups slice u ps
      = (List.range ps.length).map
          (fun i => slice.filter (fun x => !u x && firstMatch ps x == some i)) := by
  induction ps with
  | nil => intro u; rfl
  | cons p ps ih =>
    intro u
    rw [firstMatchGroups, ih, List.length_cons, List.range_succ_eq_map, List.map_cons,
      List.map_map]
    congr 1
    · congr 1
      funext x
      simp only [firstMatch]
      cases u x <;> cases hp : p x <;> simp
    · apply List.map_congr_left
      intro i _
      simp only [Function.comp]
      congr 1
      funext x
      simp only [firstMatch]
      cases u x <;> cases hp : p x <;> simp

theorem GroupsExclusive_eq_map {T : Type} (slice : List T) (np : NamedPredicate T) :
    GroupsExclusive slice np = (List.range np.Predicates.length).map
      (fun i => slice.filter (fun x => firstMatch np.Predicates x == some i)) := by
  rw [GroupsExclusive_eq, firstMatchGroups_eq_map]
  simp

theorem GroupsHierarchical.appendSub_eq {T : Type} (subResults : List (List T)) :
    ∀ finalResults, GroupsHierarchical.appendSub subResults finalResults
      = finalResults ++ subResults.filter (fun s => !s.isEmpty) := by
  induction subResults with
  | nil => intro f; simp [GroupsHierarchical.appendSub]
  | cons s subs ih =>
    intro f
    unfold GroupsHierarchical.appendSub
    cases s with
    | nil => simp [ih]
    | cons a s => simp [ih]

theorem GroupsHierarchical.loop_eq {T : Type} (recurse : List T → List (List T))
    (firstGroups : List (List T)) :
    ∀ finalResults, GroupsHierarchical.loop recurse firstGroups finalResults
      = finalResults ++ firstGroups.flatMap (fun g => (recurse g).filter (fun s => !s.isEmpty)) := by
  induction firstGroups with
  | nil => intro f; simp [GroupsHierarchical.loop]
  | cons g gs ih =>
    intro f
    unfold GroupsHierarchical.loop
    rw [ih, GroupsHierarchical.appendSub_eq]
    simp

theorem GroupsHierarchical_cons_cons {T : Type} (s s2 : NamedPredicate T)
    (more : List (NamedPredicate T)) (slice : List T) :
    GroupsHierarchical (s :: s2 :: more) slice
      = (GroupsExclusive slice s).flatMap
          (fun g => (GroupsHierarchical (s2 :: more) g).filter (fun r => !r.isEmpty)) := by
  rw [GroupsHierarchical, GroupsHierarchical.loop_eq]
  simp

theorem Flat_eq_flatten {T : Type} (slices : List (List T)) : Flat slices = slices.flatten := by
  have h : ∀ (acc : List T), slices.foldl (fun result slice => result ++ slice) acc
      = acc ++ slices.flatten := by
    induction slices with
    | nil => intro acc; simp
    | cons s ss ih => intro acc; simp [ih]
  simpa using h []


/-! ## `GroupsHierarchical` -/

theorem filter_append_filter_perm {T : Type} (a b : T → Bool) (l : List T)
    (hab : ∀ x, a x = true → b x = false) :
    (l.filter a ++ l.filter b).Perm (l.filter (fun x => a x || b x)) := by
  induction l with
  | nil => simp
  | cons x l ih =>
    cases ha : a x
    · cases hb : b x
      · simpa [List.filter_cons, ha, hb] using ih
      · simp only [List.filter_cons, ha, hb, Bool.or_true, if_true, Bool.false_eq_true, if_false]
        exact List.perm_middle.trans (ih.cons x)
    · have hb := hab x ha
      simpa [List.filter_cons, ha, hb] using ih

theorem firstMatchGroups_flatten_perm {T : Type} (slice : List T) (ps : List (Predicate T)) :
    ∀ u : T → Bool, (firstMatchGroups slice u ps).flatten.Perm
      (slice.filter (fun x => !u x && ps.any (fun p => p x))) := by
  induction ps with
  | nil => intro u; simp [firstMatchGroups]
  | cons p ps ih =>
    intro u
    simp only [firstMatchGroups, List.flatten_cons, List.any_cons]
    refine ((ih _).append_left _).trans ?_
    refine (filter_append_filter_perm _ _ slice ?_).trans ?_
    · intro x; cases u x <;> cases p x <;> simp
    · apply List.Perm.of_eq
      congr 1
      funext x
      cases u x <;> cases p x <;> simp

theorem flatten_filter_not_isEmpty {T : Type} (L : List (List T)) :
    (L.filter (fun r => !r.isEmpty)).flatten = L.flatten := by
  induction L with
  | nil => rfl
  | cons r L ih => cases r <;> simp [List.filter_cons, ih]

theorem flatten_flatMap_filter {T : Type} (p : T → Bool) (L : List (List T)) :
    L.flatMap (fun g => g.filter p) = L.flatten.filter p := by
  induction L with
  | nil => rfl
  | cons g L ih => simp [List.flatMap_cons, ih]

theorem flatten_flatMap_eq {T U : Type} (f : T → List (List U)) (L : List T) :
    (L.flatMap f).flatten = L.flatMap (fun g => (f g).flatten) := by
  induction L with
  | nil => rfl
  | cons g L ih => simp [List.flatMap_cons, ih]

theorem GroupsHierarchical_flatten_perm {T : Type} (sets : List (NamedPredicate T)) :
    ∀ slice : List T, (GroupsHierarchical sets slice).flatten.Perm
      (slice.filter (fun x => sets.all (fun s => s.Predicates.any (fun p => p x)))) := by
  induction sets with
  | nil => intro slice; simp [GroupsHierarchical]
  | cons s rest ih =>
    intro slice
    have hfirst : (GroupsExclusive slice s).flatten.Perm
        (slice.filter (fun x => s.Predicates.any (fun p => p x))) := by
      rw [GroupsExclusive_eq]
      simpa using firstMatchGroups_flatten_perm slice s.Predicates (fun _ => false)
    cases rest with
    | nil => simpa [GroupsHierarchical] using hfirst
    | cons s2 more =>
      rw [GroupsHierarchical_cons_cons, flatten_flatMap_eq]
      have h1 : ((GroupsExclusive slice s).flatMap (fun g =>
            ((GroupsHierarchical (s2 :: more) g).filter (fun r => !r.isEmpty)).flatten)).Perm
          ((GroupsExclusive slice s).flatMap (fun g =>
            g.filter (fun x => (s2 :: more).all (fun s => s.Predicates.any (fun p => p x))))) := by
        apply List.Perm.flatMap_left
        intro g _
        rw [flatten_filter_not_isEmpty]
        exact ih g
      refine h1.trans ?_
      rw [flatten_flatMap_filter]
      refine (hfirst.filter _).trans ?_
      rw [List.filter_filter]
      apply List.Perm.of_eq
      congr 1
      funext x
      simp only [List.all_cons]
      exact Bool.and_comm _ _

/-- C1: the concatenation `Flat (GroupsHierarchical sets slice)` is a permutation of
the input restricted to the elements that match at least one predicate in every
set; an element matching no predicate of some set occurs in no output group. -/
theorem Flat_GroupsHierarchical_perm {T : Type} (sets : List (NamedPredicate T)) (slice : List T) :
    (Flat (GroupsHierarchical sets slice)).Perm
        (slice.filter (fun x => sets.all (fun s => s.Predicates.any (fun p => p x)))) ∧
      ∀ x, (∃ s ∈ sets, ∀ p ∈ s.Predicates, p x = false) →
        ∀ g ∈ GroupsHierarchical sets slice, x ∉ g := by
  have hperm := GroupsHierarchical_flatten_perm sets slice
  refine ⟨by rw [Flat_eq_flatten]; exact hperm, ?_⟩
  rintro x ⟨s, hs, hx⟩ g hg hxg
  have hmem : x ∈ (GroupsHierarchical sets slice).flatten := List.mem_flatten.mpr ⟨g, hg, hxg⟩
  have := (List.mem_filter.mp (hperm.subset hmem)).2
  rw [List.all_eq_true] at this
  have h2 := this s hs
  rw [List.any_eq_true] at h2
  obtain ⟨p, hp, hpx⟩ := h2
  rw [hx p hp] at hpx
  exact Bool.false_ne_true hpx

/-- C2: `GroupsExclusive` returns one group per predicate, and group `i` is the
subsequence of the input, in input order, of the elements that satisfy
predicate `i` and none of the predicates before it. -/
theorem GroupsExclusive_first_match {T : Type} (slice : List T) (np : NamedPredicate T) :
    (GroupsExclusive slice np).length = np.Predicates.length ∧
      ∀ (i : Nat) (p : Predicate T), np.Predicates[i]? = some p →
        (GroupsExclusive slice np)[i]?
          = some (slice.filter (fun x => p x && !(np.Predicates.take i).any (fun q => q x))) := by
  rw [GroupsExclusive_eq]
  refine ⟨firstMatchGroups_length _ _ _, ?_⟩
  intro i p hp
  rw [firstMatchGroups_getElem? slice np.Predicates _ i p hp]
  simp

theorem GroupsExclusive_first_match_witness :
    (GroupsExclusive [1, 2, 3, 4, 5, 6]
        (⟨"w", [fun x => decide (4 < x), fun x => decide (2 < x)]⟩ : NamedPredicate Int))[1]?
      = some ([1, 2, 3, 4, 5, 6].filter
          (fun x => (fun x => decide (2 < x)) x
            && !(List.take 1 [fun x => decide (4 < x), fun x : Int => decide (2 < x)]).any
              (fun q => q x))) :=
  (GroupsExclusive_first_match [1, 2, 3, 4, 5, 6]
    (⟨"w", [fun x => decide (4 < x), fun x => decide (2 < x)]⟩ : NamedPredicate Int)).2 1
    (fun x => decide (2 < x)) rfl


theorem tierTuple_cons {T : Type} (s : NamedPredicate T) (rest : List (NamedPredicate T))
    (x : T) (i : Nat) (t : List Nat) (hi : firstMatch s.Predicates x = some i)
    (ht : tierTuple rest x = some t) : tierTuple (s :: rest) x = some (i :: t) := by
  simp [tierTuple, hi, ht]

theorem lex_lt_irrefl (t : List Nat) : ¬ List.Lex (· < ·) t t := by
  induction t with
  | nil => intro h; cases h
  | cons a t ih =>
    intro h
    cases h with
    | cons h => exact ih h
    | rel h => exact Nat.lt_irrefl a h

theorem TierBefore.ne {T : Type} {sets : List (NamedPredicate T)} {x y : T}
    (h : TierBefore sets x y) : x ≠ y := by
  rintro rfl
  obtain ⟨tx, ty, hx, hy, hlt⟩ := h
  rw [hx] at hy
  cases hy
  exact lex_lt_irrefl tx hlt

theorem mem_firstMatch_group {T : Type} {slice : List T} {ps : List (Predicate T)} {i : Nat}
    {x : T} (hx : x ∈ slice.filter (fun x => firstMatch ps x == some i)) :
    x ∈ slice ∧ firstMatch ps x = some i := by
  rw [List.mem_filter] at hx
  exact ⟨hx.1, by simpa using hx.2⟩

/-- Structure of the output of `GroupsHierarchical`: every group consists of input
elements with one common tier tuple, and groups are ordered by tier tuple. -/
theorem GroupsHierarchical_tiered {T : Type} (sets : List (NamedPredicate T)) :
    ∀ slice : List T,
      (∀ g ∈ GroupsHierarchical sets slice,
        (∀ x ∈ g, x ∈ slice) ∧
          ∃ t, t.length = sets.length ∧ ∀ x ∈ g, tierTuple sets x = some t) ∧
      (GroupsHierarchical sets slice).Pairwise
        (fun g h => ∀ x ∈ g, ∀ y ∈ h, TierBefore sets x y) := by
  induction sets with
  | nil =>
    intro slice
    refine ⟨?_, by simp [GroupsHierarchical]⟩
    intro g hg
    simp only [GroupsHierarchical, List.mem_singleton] at hg
    subst hg
    exact ⟨fun x hx => hx, [], rfl, fun x _ => rfl⟩
  | cons s rest ih =>
    intro slice
    cases rest with
    | nil =>
      simp only [GroupsHierarchical]
      rw [GroupsExclusive_eq_map]
      refine ⟨?_, ?_⟩
      · intro g hg
        rw [List.mem_map] at hg
        obtain ⟨i, _, rfl⟩ := hg
        refine ⟨fun x hx => (mem_firstMatch_group hx).1, [i], rfl, fun x hx => ?_⟩
        exact tierTuple_cons s [] x i [] (mem_firstMatch_group hx).2 rfl
      · rw [List.pairwise_map]
        refine (List.pairwise_lt_range _).imp ?_
        intro i j hij x hx y hy
        exact ⟨[i], [j], tierTuple_cons s [] x i [] (mem_firstMatch_group hx).2 rfl,
          tierTuple_cons s [] y j [] (mem_firstMatch_group hy).2 rfl, List.Lex.rel hij⟩
    | cons s2 more =>
      rw [GroupsHierarchical_cons_cons, GroupsExclusive_eq_map, List.flatMap_map]
      refine ⟨?_, ?_⟩
      · intro g hg
        rw [List.mem_flatMap] at hg
        obtain ⟨i, _, hg⟩ := hg
        have hg2 := (List.mem_filter.mp hg).1
        obtain ⟨hsub, t, hlen, ht⟩ := (ih _).1 g hg2
        refine ⟨fun x hx => (mem_firstMatch_group (hsub x hx)).1, i :: t, by simp [hlen],
          fun x hx => ?_⟩
        exact tierTuple_cons s _ x i t (mem_firstMatch_group (hsub x hx)).2 (ht x hx)
      · rw [List.pairwise_flatMap]
        refine ⟨?_, ?_⟩
        · intro i _
          refine List.Pairwise.filter _ (((ih _).2).imp_of_mem ?_)
          intro g h hg hh hlt x hx y hy
          obtain ⟨tx, ty, htx, hty, hlex⟩ := hlt x hx y hy
          have hxi := (mem_firstMatch_group (((ih _).1 g hg).1 x hx)).2
          have hyi := (mem_firstMatch_group (((ih _).1 h hh).1 y hy)).2
          exact ⟨i :: tx, i :: ty, tierTuple_cons s _ x i tx hxi htx,
            tierTuple_cons s _ y i ty hyi hty, List.Lex.cons hlex⟩
        · refine (List.pairwise_lt_range _).imp ?_
          intro i j hij g hg h hh x hx y hy
          have hg2 := (List.mem_filter.mp hg).1
          have hh2 := (List.mem_filter.mp hh).1
          obtain ⟨hsubg, tx, _, htx⟩ := (ih _).1 g hg2
          obtain ⟨hsubh, ty, _, hty⟩ := (ih _).1 h hh2
          exact ⟨i :: tx, j :: ty,
            tierTuple_cons s _ x i tx (mem_firstMatch_group (hsubg x hx)).2 (htx x hx),
            tierTuple_cons s _ y j ty (mem_firstMatch_group (hsubh y hy)).2 (hty y hy),
            List.Lex.rel hij⟩

/-- C4: the groups returned by `GroupsHierarchical` are pairwise disjoint (no
value occurs in two different output groups, also with duplicate values in the
input) and every element of every group is an element of the input. -/
theorem GroupsHierarchical_disjoint {T : Type} (sets : List (NamedPredicate T))
    (slice : List T) :
    (GroupsHierarchical sets slice).Pairwise List.Disjoint ∧
      ∀ g ∈ GroupsHierarchical sets slice, ∀ x ∈ g, x ∈ slice := by
  refine ⟨?_, fun g hg => ((GroupsHierarchical_tiered sets slice).1 g hg).1⟩
  refine ((GroupsHierarchical_tiered sets slice).2).imp ?_
  intro g h hlt x hxg hxh
  exact (hlt x hxg x hxh).ne rfl

/-- C5: all elements of one output group of `GroupsHierarchical` have the same
tier tuple, and whenever `x` is in an earlier output group than `y` the tier
tuple of `x` is strictly smaller than that of `y` in lexicographic order. -/
theorem GroupsHierarchical_tier_order {T : Type} (sets : List (NamedPredicate T))
    (slice : List T) :
    (∀ g ∈ GroupsHierarchical sets slice, ∃ t, t.length = sets.length ∧
        ∀ x ∈ g, tierTuple sets x = some t) ∧
      (GroupsHierarchical sets slice).Pairwise
        (fun g h => ∀ x ∈ g, ∀ y ∈ h, ∃ tx ty, tierTuple sets x = some tx ∧
          tierTuple sets y = some ty ∧ List.Lex (· < ·) tx ty) :=
  ⟨fun g hg => ((GroupsHierarchical_tiered sets slice).1 g hg).2,
    (GroupsHierarchical_tiered sets slice).2⟩

theorem GroupsHierarchical_ne_nil_of_two {T : Type} (s s2 : NamedPredicate T)
    (more : List (NamedPredicate T)) (slice : List T) :
    ∀ g ∈ GroupsHierarchical (s :: s2 :: more) slice, g ≠ [] := by
  intro g hg
  rw [GroupsHierarchical_cons_cons, List.mem_flatMap] at hg
  obtain ⟨_, _, hg⟩ := hg
  have := (List.mem_filter.mp hg).2
  rintro rfl
  simp at this

/-- C3, as the code has it: with two or more predicate sets every group in the
output of `GroupsHierarchical` is non-empty, and with no predicate set the output
is the input as one group, empty when the input is. -/
theorem GroupsHierarchical_groups_nonempty {T : Type} (sets : List (NamedPredicate T))
    (slice : List T) :
    (2 ≤ sets.length → ∀ g ∈ GroupsHierarchical sets slice, g ≠ []) ∧
      GroupsHierarchical ([] : List (NamedPredicate T)) slice = [slice] := by
  refine ⟨?_, rfl⟩
  intro h
  match sets, h with
  | s :: s2 :: more, _ => exact GroupsHierarchical_ne_nil_of_two s s2 more slice

theorem GroupsHierarchical_groups_nonempty_witness :
    2 ≤ [BiggerGroup.predicate, BiggerGroup.predicate].length ∧
      ((∀ g ∈ GroupsHierarchical [BiggerGroup.predicate, BiggerGroup.predicate] [1, 3, 101],
          g ≠ []) ∧
        GroupsHierarchical ([] : List (NamedPredicate Int)) [1, 3, 101] = [[1, 3, 101]]) :=
  ⟨by decide,
    (GroupsHierarchical_groups_nonempty [BiggerGroup.predicate, BiggerGroup.predicate]
      [1, 3, 101]).1 (by decide),
    (GroupsHierarchical_groups_nonempty [BiggerGroup.predicate, BiggerGroup.predicate]
      [1, 3, 101]).2⟩

/-- C3 fails as stated: the single predicate set of `main.go` on the filtered
candidates leaves its third group empty, and no predicate set on the empty input
gives one empty group. -/
theorem GroupsHierarchical_empty_group :
    ¬ (∀ g ∈ GroupsHierarchical [BiggerGroup.predicate]
          [1, 3, 5, 7, 9, 101, 201, 301, 401, 601, 991], g ≠ []) ∧
      ¬ (∀ g ∈ GroupsHierarchical ([] : List (NamedPredicate Int)) [], g ≠ []) := by
  constructor
  · intro h
    exact h [] (by decide) rfl
  · intro h
    exact h [] (by decide) rfl




/-! ## `Recommend.Filter` -/

theorem Recommend.Filter.loop_append {ε : Type} (userId : Int) (pre : List (FilterRule ε)) :
    ∀ (rest : List (FilterRule ε)) (input x : List Int),
      reachedInput userId pre input = some x →
      Recommend.Filter.loop userId (pre ++ rest) input = Recommend.Filter.loop userId rest x := by
  induction pre with
  | nil =>
    intro rest input x h
    simp only [reachedInput, Option.some.injEq] at h
    subst h
    rfl
  | cons rule pre ih =>
    intro rest input x h
    simp only [reachedInput] at h
    simp only [List.cons_append, Recommend.Filter.loop]
    cases hr : rule userId input with
    | error e => simp [hr] at h
    | ok result =>
      simp only [hr] at h ⊢
      by_cases hlen : result.length = 0
      · simp [hlen] at h
      · rw [if_neg hlen] at h ⊢
        exact ih rest result x h

/-- C9: a rule that fails when it is reached (every earlier rule succeeded with
a non-empty result) makes `Recommend.Filter` return that rule's error, whatever
the rules after it are. -/
theorem Filter_error_propagates {ε : Type} (m : Recommend ε) (pre post : List (FilterRule ε))
    (rule : FilterRule ε) (anchors x : List Int) (e : ε)
    (hrules : m.Rules = pre ++ rule :: post)
    (hreach : reachedInput m.UserId pre anchors = some x)
    (hfail : rule m.UserId x = .error e) :
    m.Filter anchors = .error e := by
  unfold Recommend.Filter
  rw [hrules, Recommend.Filter.loop_append m.UserId pre _ anchors x hreach]
  simp [Recommend.Filter.loop, hfail]

/-- C10: a rule that yields the empty list when it is reached (every earlier
rule succeeded with a non-empty result) makes `Recommend.Filter` return the
empty result with no error, whatever the rules after it are. -/
theorem Filter_empty_short_circuit {ε : Type} (m : Recommend ε)
    (pre post : List (FilterRule ε)) (rule : FilterRule ε) (anchors x : List Int)
    (hrules : m.Rules = pre ++ rule :: post)
    (hreach : reachedInput m.UserId pre anchors = some x)
    (hempty : rule m.UserId x = .ok []) :
    m.Filter anchors = .ok [] := by
  unfold Recommend.Filter
  rw [hrules, Recommend.Filter.loop_append m.UserId pre _ anchors x hreach]
  simp [Recommend.Filter.loop, hempty]


theorem Filter_error_propagates_witness :
    reachedInput 7 [(isOddUser : FilterRule String)] [1, 2, 3] = some [1, 3] ∧
      (NewRecommend 7 (.ok [])
          [isOddUser, fun _ _ => .error "boom", fun _ _ => .ok [42]] [] []).Filter [1, 2, 3]
        = (.error "boom" : Except String (List Int)) :=
  ⟨rfl, Filter_error_propagates
    (NewRecommend 7 (.ok []) [isOddUser, fun _ _ => .error "boom", fun _ _ => .ok [42]] [] [])
    [isOddUser] [fun _ _ => .ok [42]] (fun _ _ => .error "boom") [1, 2, 3] [1, 3] "boom"
    rfl rfl rfl⟩

theorem Filter_empty_short_circuit_witness :
    reachedInput 7 [(isOddUser : FilterRule String)] [1, 2, 3] = some [1, 3] ∧
      (NewRecommend 7 (.ok [])
          [isOddUser, fun _ _ => .ok [], fun _ _ => .error "late"] [] []).Filter [1, 2, 3]
        = (.ok [] : Except String (List Int)) :=
  ⟨rfl, Filter_empty_short_circuit
    (NewRecommend 7 (.ok []) [isOddUser, fun _ _ => .ok [], fun _ _ => .error "late"] [] [])
    [isOddUser] [fun _ _ => .error "late"] (fun _ _ => .ok []) [1, 2, 3] [1, 3]
    rfl rfl rfl⟩

/-! ## `Recommend.Fetch` -/

theorem Recommend.Fetch_of_success {ε : Type} (m : Recommend ε) (sh : Shuffles) (size : Int)
    (anchors filtered : List Int) (groups post : List (List Int))
    (hrecall : m.Recaller = .ok anchors) (ha : anchors ≠ [])
    (hfilter : m.Filter (sh.recalled anchors) = .ok filtered) (hf : filtered ≠ [])
    (hgroup : m.GroupSort filtered = .ok groups)
    (hpost : m.PostSort (Flat (shuffleGroups sh 0 groups)) = .ok post) :
    m.Fetch sh size = sliceTo (Flat post) size := by
  unfold Recommend.Fetch
  simp [hrecall, ha, hfilter, hf, hgroup, hpost]

theorem Recommend.Fetch_of_empty {ε : Type} (m : Recommend ε) (sh : Shuffles) (size : Int)
    (anchors filtered : List Int) (hrecall : m.Recaller = .ok anchors)
    (hfilter : m.Filter (sh.recalled anchors) = .ok filtered)
    (h : anchors = [] ∨ filtered = []) :
    m.Fetch sh size = .ok [] := by
  unfold Recommend.Fetch
  by_cases ha : anchors = []
  · simp [hrecall, ha]
  · have hf : filtered = [] := h.resolve_left ha
    simp [hrecall, ha, hfilter, hf]

theorem sliceTo_of_nonneg {ε : Type} (flat : List Int) (size : Int) (hsize : 0 ≤ size) :
    (sliceTo flat size : Outcome ε (List Int))
        = .ok (flat.take (min size (flat.length : Int)).toNat) ∧
      ((flat.take (min size (flat.length : Int)).toNat).length : Int)
        = min size (flat.length : Int) := by
  have hmin : 0 ≤ min size (flat.length : Int) := le_min hsize (Int.natCast_nonneg _)
  refine ⟨by simp [sliceTo, not_lt.mpr hmin], ?_⟩
  rw [List.length_take]
  have h1 : (min size (flat.length : Int)).toNat ≤ flat.length := by
    have : min size (flat.length : Int) ≤ flat.length := min_le_right _ _
    omega
  rw [Nat.min_eq_left h1]
  exact Int.toNat_of_nonneg hmin

/-- C6: for `size ≥ 0`, every outcome of the shuffles and all collaborators
succeeding, `Fetch size` returns with no error the first `min size (len flat2)`
elements of `flat2`, the flattened result of the post-grouping pass (nothing when
the recall or the filtered list is empty and the pass is not run), so the
returned length is `min size (len flat2)`, also when that is below `size`. -/
theorem Fetch_truncation {ε : Type} (m : Recommend ε) (sh : Shuffles) (size : Int)
    (anchors filtered flat2 : List Int) (groups post : List (List Int))
    (hsize : 0 ≤ size)
    (hrecall : m.Recaller = .ok anchors)
    (hfilter : m.Filter (sh.recalled anchors) = .ok filtered)
    (hgroup : m.GroupSort filtered = .ok groups)
    (hpost : m.PostSort (Flat (shuffleGroups sh 0 groups)) = .ok post)
    (hflat2 : flat2 = if anchors = [] ∨ filtered = [] then [] else Flat post) :
    m.Fetch sh size = .ok (flat2.take (min size (flat2.length : Int)).toNat) ∧
      ((flat2.take (min size (flat2.length : Int)).toNat).length : Int)
        = min size (flat2.length : Int) := by
  by_cases h : anchors = [] ∨ filtered = []
  · rw [if_pos h] at hflat2
    subst hflat2
    exact ⟨by simpa using Recommend.Fetch_of_empty m sh size anchors filtered hrecall hfilter h,
      by simpa using hsize⟩
  · rw [if_neg h] at hflat2
    subst hflat2
    rw [not_or] at h
    rw [Recommend.Fetch_of_success m sh size anchors filtered groups post hrecall h.1 hfilter h.2
      hgroup hpost]
    exact sliceTo_of_nonneg (Flat post) size hsize

theorem Fetch_truncation_witness :
    (0 : Int) ≤ 3 ∧
      (Builder.Build : Recommend String).Fetch Shuffles.identity 3 = .ok [101, 201, 301] :=
  ⟨by decide,
    (Fetch_truncation (Builder.Build : Recommend String) Shuffles.identity 3
      [1, 2, 3, 4, 5, 6, 7, 8, 9, 10, 101, 201, 301, 401, 500, 601, 700, 800, 991, 1000]
      [1, 3, 5, 7, 9, 101, 201, 301, 401, 601, 991]
      [101, 201, 301, 401, 601, 991, 1, 3, 5, 7, 9]
      [[101, 201, 301, 401, 601, 991], [1, 3, 5, 7, 9], []]
      [[101, 201, 301, 401, 601, 991, 1, 3, 5, 7, 9]]
      (by decide) rfl rfl rfl rfl rfl).1⟩

/-- C7: on the configuration of `main.go` a negative size makes `Fetch` stop
with a run-time panic at `flat[:min(size, len(flat))]` instead of returning an
empty result. -/
theorem Fetch_negative_size_fault :
    (Builder.Build : Recommend String).Fetch Shuffles.identity (-1) = Outcome.fault := by
  decide

theorem Shuffles.identity_valid : Shuffles.identity.Valid :=
  ⟨fun l => List.Perm.refl l, fun _ l => List.Perm.refl l⟩

theorem Builder.Build_Filter {ε : Type} (anchors : List Int) :
    (Builder.Build : Recommend ε).Filter anchors
      = .ok (anchors.filter (fun id => Int.tmod id 2 == 1)) := by
  simp only [Recommend.Filter, Builder.Build, NewRecommend, Recommend.Filter.loop, isOddUser]
  split
  · rename_i h; rw [List.length_eq_zero.mp h]
  · rfl

theorem Builder.Build_GroupSort {ε : Type} (anchors : List Int) :
    (Builder.Build : Recommend ε).GroupSort anchors
      = .ok [anchors.filter (fun item => decide (item > 100)),
          anchors.filter (fun item => !decide (item > 100)
            && (decide (item > 0) && decide (item < 50))),
          anchors.filter (fun item =>
            !(decide (item > 100) || (decide (item > 0) && decide (item < 50)))
              && decide (item < 0))] := by
  simp only [Recommend.GroupSort, Builder.Build, NewRecommend, collectPredicates, BiggerGroup,
    List.nil_append, GroupsHierarchical]
  rw [GroupsExclusive_eq]
  simp [BiggerGroup.predicate, firstMatchGroups]

theorem Builder.Build_PostSort {ε : Type} (anchors : List Int) :
    (Builder.Build : Recommend ε).PostSort anchors = .ok [anchors] := by
  simp [Recommend.PostSort, Builder.Build, NewRecommend, collectPredicates, GroupsHierarchical]

/-- C8: in the scenario of `main.go`, for every outcome of the shuffles,
`Fetch 100` returns no error and a list of exactly 11 identifiers, a permutation
of 1, 3, 5, 7, 9, 101, 201, 301, 401, 601, 991 in which the six identifiers above
100 come before the five identifiers 1, 3, 5, 7, 9. -/
theorem main_scenario {ε : Type} (sh : Shuffles) (hsh : sh.Valid) :
    ∃ hi lo : List Int,
      (Builder.Build : Recommend ε).Fetch sh 100 = .ok (hi ++ lo) ∧
        hi.Perm [101, 201, 301, 401, 601, 991] ∧ lo.Perm [1, 3, 5, 7, 9] ∧
        (hi ++ lo).length = 11 ∧
        (hi ++ lo).Perm [1, 3, 5, 7, 9, 101, 201, 301, 401, 601, 991] := by
  obtain ⟨hrec, hgrp⟩ := hsh
  let R : List Int :=
    [1, 2, 3, 4, 5, 6, 7, 8, 9, 10, 101, 201, 301, 401, 500, 601, 700, 800, 991, 1000]
  let F : List Int := (sh.recalled R).filter (fun id => Int.tmod id 2 == 1)
  have hF : F.Perm [1, 3, 5, 7, 9, 101, 201, 301, 401, 601, 991] :=
    (hrec R).filter (fun id => Int.tmod id 2 == 1)
  have hFne : F ≠ [] := by
    intro h
    have := hF.length_eq
    rw [h] at this
    simp at this
  let g0 := F.filter (fun item => decide (item > 100))
  let g1 := F.filter (fun item => !decide (item > 100)
    && (decide (item > 0) && decide (item < 50)))
  let g2 := F.filter (fun item =>
    !(decide (item > 100) || (decide (item > 0) && decide (item < 50))) && decide (item < 0))
  have h0 : (sh.group 0 g0).Perm [101, 201, 301, 401, 601, 991] :=
    (hgrp 0 g0).trans (hF.filter _)
  have h1 : (sh.group 1 g1).Perm [1, 3, 5, 7, 9] := (hgrp 1 g1).trans (hF.filter _)
  have h2 : sh.group 2 g2 = [] := List.perm_nil.mp ((hgrp 2 g2).trans (hF.filter _))
  have hflat : Flat (shuffleGroups sh 0 [g0, g1, g2]) = sh.group 0 g0 ++ sh.group 1 g1 := by
    simp [Flat, shuffleGroups, h2]
  have hfetch : (Builder.Build : Recommend ε).Fetch sh 100
      = sliceTo (Flat [sh.group 0 g0 ++ sh.group 1 g1]) 100 := by
    refine Recommend.Fetch_of_success _ sh 100 R F [g0, g1, g2] _ rfl (by decide)
      (Builder.Build_Filter _) hFne (Builder.Build_GroupSort F) ?_
    rw [hflat]
    exact Builder.Build_PostSort _
  have hlen : (sh.group 0 g0 ++ sh.group 1 g1).length = 11 := by
    rw [List.length_append, h0.length_eq, h1.length_eq]
    rfl
  refine ⟨sh.group 0 g0, sh.group 1 g1, ?_, h0, h1, hlen, ?_⟩
  · rw [hfetch, (sliceTo_of_nonneg _ 100 (by decide)).1]
    have hF1 : Flat [sh.group 0 g0 ++ sh.group 1 g1] = sh.group 0 g0 ++ sh.group 1 g1 := by
      simp [Flat]
    rw [hF1, hlen]
    have : (min (100 : Int) ((11 : Nat) : Int)).toNat = 11 := by decide
    rw [this, ← hlen, List.take_length]
  · exact (List.perm_append_comm).trans (h1.append h0)

theorem main_scenario_witness :
    Shuffles.identity.Valid ∧
      ∃ hi lo : List Int,
        (Builder.Build : Recommend String).Fetch Shuffles.identity 100 = .ok (hi ++ lo) ∧
          hi.Perm [101, 201, 301, 401, 601, 991] ∧ lo.Perm [1, 3, 5, 7, 9] ∧
          (hi ++ lo).length = 11 ∧
          (hi ++ lo).Perm [1, 3, 5, 7, 9, 101, 201, 301, 401, 601, 991] :=
  ⟨Shuffles.identity_valid, main_scenario Shuffles.identity Shuffles.identity_valid⟩


/-! ## `RetryRecommend.Fetch` -/

theorem RetryRecommend.append_eq (result fetch : List Int) :
    RetryRecommend.append result fetch = result ++ fetch := by
  cases fetch <;> simp [RetryRecommend.append]

theorem accumulated_succ_of_ok {ε : Type} (r : RetryRecommend ε) (size : Int) (j : Nat)
    (fetch : List Int) (h : r.Recommender j (shortfall r size j) = .ok fetch) :
    accumulated r size (j + 1) = accumulated r size j ++ fetch := by
  unfold shortfall at h
  rw [accumulated, h]

theorem RetryRecommend.loop_continue {ε : Type} (r : RetryRecommend ε) (size : Int)
    (n i : Nat) (calls fetch : List Int)
    (h : r.Recommender i (shortfall r size i) = .ok fetch)
    (hlt : ((accumulated r size (i + 1)).length : Int) < size) :
    RetryRecommend.loop r size (n + 1) i (shortfall r size i) (accumulated r size i) calls
      = RetryRecommend.loop r size n (i + 1) (shortfall r size (i + 1))
          (accumulated r size (i + 1)) (calls ++ [shortfall r size i]) := by
  have hacc := accumulated_succ_of_ok r size i fetch h
  rw [RetryRecommend.loop, h]
  simp only [RetryRecommend.append_eq, ← hacc]
  rw [if_neg (not_le.mpr hlt), if_neg (by omega)]
  rfl

theorem RetryRecommend.loop_stop {ε : Type} (r : RetryRecommend ε) (size : Int)
    (n i : Nat) (calls fetch : List Int)
    (h : r.Recommender i (shortfall r size i) = .ok fetch)
    (hge : size ≤ ((accumulated r size (i + 1)).length : Int)) :
    RetryRecommend.loop r size (n + 1) i (shortfall r size i) (accumulated r size i) calls
      = (.ok (accumulated r size (i + 1)), calls ++ [shortfall r size i]) := by
  have hacc := accumulated_succ_of_ok r size i fetch h
  rw [RetryRecommend.loop, h]
  simp only [RetryRecommend.append_eq, ← hacc]
  rw [if_pos hge]

theorem RetryRecommend.loop_err {ε : Type} (r : RetryRecommend ε) (size : Int)
    (n i : Nat) (fetchSize : Int) (result calls : List Int) (e : ε)
    (h : r.Recommender i fetchSize = .err e) :
    RetryRecommend.loop r size (n + 1) i fetchSize result calls
      = (.err e, calls ++ [fetchSize]) := by
  rw [RetryRecommend.loop, h]

theorem shortfall_zero {ε : Type} (r : RetryRecommend ε) (size : Int) :
    shortfall r size 0 = size := by
  simp [shortfall, accumulated]

/-- The loop of `RetryRecommend.Fetch` after `k` successful calls that each left
the accumulator below `size`. -/
theorem RetryRecommend.loop_reach {ε : Type} (r : RetryRecommend ε) (size : Int) (k : Nat) :
    (∀ j, j < k → ∃ fetch, r.Recommender j (shortfall r size j) = .ok fetch ∧
        ((accumulated r size (j + 1)).length : Int) < size) →
      ∀ n, RetryRecommend.loop r size (k + n) 0 size [] []
        = RetryRecommend.loop r size n k (shortfall r size k) (accumulated r size k)
            ((List.range k).map (shortfall r size)) := by
  induction k with
  | zero =>
    intro _ n
    rw [shortfall_zero]
    simp [accumulated]
  | succ k ih =>
    intro h n
    have hk := ih (fun j hj => h j (by omega)) (n + 1)
    rw [show k + 1 + n = k + (n + 1) by omega, hk]
    obtain ⟨fetch, hfetch, hlt⟩ := h k (by omega)
    rw [RetryRecommend.loop_continue r size n k _ fetch hfetch hlt, List.range_succ,
      List.map_append]
    rfl

/-- C12: when the call number `i` of the wrapped recommender is reached (every
call before it succeeded and left the accumulator below `size`, and `i` is below
the attempt count) and fails, `RetryRecommend.Fetch` returns that error and no
result, and no call is made after it. -/
theorem Retry_error_aborts {ε : Type} (r : RetryRecommend ε) (size : Int) (i : Nat) (e : ε)
    (hi : (i : Int) < r.retryCount)
    (hreach : ∀ j, j < i → ∃ fetch, r.Recommender j (shortfall r size j) = .ok fetch ∧
      ((accumulated r size (j + 1)).length : Int) < size)
    (hfail : r.Recommender i (shortfall r size i) = .err e) :
    r.Fetch size = .err e ∧ (r.run size).2 = (List.range (i + 1)).map (shortfall r size) := by
  have hN : r.retryCount.toNat = i + ((r.retryCount.toNat - i - 1) + 1) := by omega
  have hrun : r.run size
      = (.err e, (List.range i).map (shortfall r size) ++ [shortfall r size i]) := by
    unfold RetryRecommend.run
    rw [hN, RetryRecommend.loop_reach r size i hreach, RetryRecommend.loop_err _ _ _ _ _ _ _ e hfail]
  refine ⟨by rw [RetryRecommend.Fetch, hrun], ?_⟩
  rw [hrun, List.range_succ, List.map_append]
  rfl


theorem Retry_error_aborts_witness :
    ((2 : Nat) : Int) < 4 ∧
      (NewRetryRecommend (fun i _ => if i = 2 then .err "x" else .ok [7, 7, 7]) 4).Fetch 10
        = (.err "x" : Outcome String (List Int)) :=
  ⟨by decide,
    (Retry_error_aborts
      (NewRetryRecommend (fun i _ => if i = 2 then .err "x" else .ok [7, 7, 7]) 4) 10 2 "x"
      (by decide)
      (by
        intro j hj
        interval_cases j
        · exact ⟨[7, 7, 7], rfl, by decide⟩
        · exact ⟨[7, 7, 7], rfl, by decide⟩)
      rfl).1⟩

/-- The loop of `RetryRecommend.Fetch` on a wrapped recommender whose calls all
succeed, from the state reached after `k` calls: it stops after `J` calls in
all, with the accumulator of these calls. -/
theorem RetryRecommend.loop_success {ε : Type} (r : RetryRecommend ε) (size : Int)
    (d : Nat → Int → List Int) (hok : ∀ i n, r.Recommender i n = .ok (d i n)) (n : Nat) :
    ∀ (k : Nat) (calls : List Int),
      (∀ j, 0 < j → j ≤ k → ((accumulated r size j).length : Int) < size) →
      ∃ J, k ≤ J ∧ J ≤ k + n ∧ (0 < n → k < J) ∧
        (∀ j, 0 < j → j < J → ((accumulated r size j).length : Int) < size) ∧
        (J < k + n → size ≤ ((accumulated r size J).length : Int)) ∧
        RetryRecommend.loop r size n k (shortfall r size k) (accumulated r size k) calls
          = (.ok (accumulated r size J), calls ++ (List.range' k (J - k)).map (shortfall r size)) := by
  induction n with
  | zero =>
    intro k calls hk
    refine ⟨k, le_refl k, le_refl k, fun h => absurd h (lt_irrefl 0),
      fun j h0 hj => hk j h0 (le_of_lt hj), fun h => absurd h (lt_irrefl _), ?_⟩
    simp [RetryRecommend.loop]
  | succ n ih =>
    intro k calls hk
    by_cases hge : size ≤ ((accumulated r size (k + 1)).length : Int)
    · refine ⟨k + 1, by omega, by omega, fun _ => by omega, ?_, fun _ => hge, ?_⟩
      · intro j h0 hj
        exact hk j h0 (by omega)
      · rw [RetryRecommend.loop_stop r size n k calls _ (hok k _) hge]
        simp [List.range']
    · have hlt : ((accumulated r size (k + 1)).length : Int) < size := not_le.mp hge
      obtain ⟨J, hkJ, hJn, _, hbelow, hstop, hloop⟩ := ih (k + 1) (calls ++ [shortfall r size k])
        (fun j h0 hj => by
          rcases Nat.lt_or_ge j (k + 1) with h | h
          · exact hk j h0 (by omega)
          · have : j = k + 1 := by omega
            subst this
            exact hlt)
      refine ⟨J, by omega, by omega, fun _ => by omega, hbelow, fun h => hstop (by omega), ?_⟩
      rw [RetryRecommend.loop_continue r size n k calls _ (hok k _) hlt, hloop]
      have : J - k = (J - (k + 1)) + 1 := by omega
      rw [this, List.range'_succ]
      simp

/-- A run of `RetryRecommend.Fetch` on a wrapped recommender whose calls all
succeed makes `J` calls, asking each time for the shortfall, and returns the
accumulator of these calls. -/
theorem RetryRecommend.run_success {ε : Type} (r : RetryRecommend ε) (size : Int)
    (d : Nat → Int → List Int) (hok : ∀ i n, r.Recommender i n = .ok (d i n)) :
    ∃ J, J ≤ r.retryCount.toNat ∧ (0 < r.retryCount.toNat → 0 < J) ∧
      (∀ j, 0 < j → j < J → ((accumulated r size j).length : Int) < size) ∧
      (J < r.retryCount.toNat → size ≤ ((accumulated r size J).length : Int)) ∧
      r.run size = (.ok (accumulated r size J), (List.range J).map (shortfall r size)) := by
  obtain ⟨J, _, hJ, hpos, hbelow, hstop, hloop⟩ :=
    RetryRecommend.loop_success r size d hok r.retryCount.toNat 0 [] (fun j h0 hj => by omega)
  refine ⟨J, by omega, hpos, hbelow, fun h => hstop (by omega), ?_⟩
  unfold RetryRecommend.run
  have h0 := hloop
  rw [shortfall_zero] at h0
  simp only [accumulated] at h0
  rw [h0]
  simp [List.range_eq_range']


theorem accumulated_succ {ε : Type} (r : RetryRecommend ε) (size : Int)
    (d : Nat → Int → List Int) (hok : ∀ i n, r.Recommender i n = .ok (d i n)) (j : Nat) :
    accumulated r size (j + 1) = accumulated r size j ++ d j (shortfall r size j) :=
  accumulated_succ_of_ok r size j _ (hok j _)

theorem accumulated_eq_flatMap {ε : Type} (r : RetryRecommend ε) (size : Int)
    (d : Nat → Int → List Int) (hok : ∀ i n, r.Recommender i n = .ok (d i n)) (J : Nat) :
    accumulated r size J = (List.range J).flatMap (fun j => d j (shortfall r size j)) := by
  induction J with
  | zero => rfl
  | succ J ih =>
    rw [accumulated_succ r size d hok, ih, List.range_succ, List.flatMap_append]
    simp

theorem accumulated_length_const {ε : Type} (r : RetryRecommend ε) (size : Int)
    (d : Nat → Int → List Int) (hok : ∀ i n, r.Recommender i n = .ok (d i n)) (k : Nat)
    (hk : ∀ i n, (d i n).length = k) (J : Nat) :
    (accumulated r size J).length = J * k := by
  induction J with
  | zero => simp [accumulated]
  | succ J ih =>
    rw [accumulated_succ r size d hok, List.length_append, ih, hk, Nat.succ_mul]

/-- C13: a `RetryRecommend` with attempt count `N` around a recommender that
returns exactly `k` items with no error on every call returns no error and the
untruncated concatenation of the results of the `J` calls it makes; its length
`J * k` is at least `min (N * k) size`, and it exceeds `size` when the last call
pushes the accumulator past it. -/
theorem Retry_accumulates {ε : Type} (r : RetryRecommend ε) (size : Int)
    (d : Nat → Int → List Int) (k : Nat)
    (hok : ∀ i n, r.Recommender i n = .ok (d i n))
    (hk : ∀ i n, (d i n).length = k) :
    ∃ J, r.Fetch size = .ok ((List.range J).flatMap (fun j => d j (shortfall r size j))) ∧
      ((List.range J).flatMap (fun j => d j (shortfall r size j))).length = J * k ∧
      min (r.retryCount * (k : Int)) size ≤ ((J * k : Nat) : Int) ∧
      (J : Int) ≤ max r.retryCount 0 ∧
      (∀ j, 0 < j → j < J → ((j * k : Nat) : Int) < size) ∧
      ((J : Int) < r.retryCount → size ≤ ((J * k : Nat) : Int)) := by
  obtain ⟨J, hJ, _, hbelow, hstop, hrun⟩ := RetryRecommend.run_success r size d hok
  have hlen := accumulated_length_const r size d hok k hk
  refine ⟨J, ?_, ?_, ?_, by omega, ?_, ?_⟩
  · rw [RetryRecommend.Fetch, hrun, accumulated_eq_flatMap r size d hok]
  · rw [← accumulated_eq_flatMap r size d hok, hlen]
  · by_cases hJN : J < r.retryCount.toNat
    · have := hstop hJN
      rw [hlen] at this
      exact le_trans (min_le_right _ _) this
    · have hJeq : J = r.retryCount.toNat := by omega
      refine le_trans (min_le_left _ _) ?_
      rw [Nat.cast_mul]
      exact mul_le_mul_of_nonneg_right (by omega) (Int.natCast_nonneg k)
  · intro j h0 hj
    have := hbelow j h0 hj
    rwa [hlen] at this
  · intro h
    have := hstop (by omega)
    rwa [hlen] at this

theorem Retry_accumulates_witness :
    ∃ J, (NewRetryRecommend (fun _ _ => (.ok [7, 7, 7] : Outcome String (List Int))) 4).Fetch 10
        = .ok ((List.range J).flatMap (fun _ => [7, 7, 7])) ∧
      min ((4 : Int) * ((3 : Nat) : Int)) 10 ≤ ((J * 3 : Nat) : Int) := by
  obtain ⟨J, hfetch, _, hmin, _⟩ := Retry_accumulates
    (NewRetryRecommend (fun _ _ => (.ok [7, 7, 7] : Outcome String (List Int))) 4)
    10 (fun _ _ => [7, 7, 7]) 3 (fun _ _ => rfl) (fun _ _ => rfl)
  exact ⟨J, hfetch, hmin⟩

/-- C14: on a wrapped recommender whose calls all succeed, `RetryRecommend.Fetch`
makes `J` calls, call `j` asking for `size` minus the number of items returned
by the calls before it; a call follows call `j` exactly when `j` is below the
attempt count and the accumulated total is still below `size`; the result is the
concatenation of the results in call order with no error. With an attempt count
of zero or less no call is made and the result is empty. -/
theorem Retry_shortfall_calls {ε : Type} (r : RetryRecommend ε) (size : Int)
    (d : Nat → Int → List Int) (hok : ∀ i n, r.Recommender i n = .ok (d i n)) :
    ∃ J, r.run size
        = (.ok ((List.range J).flatMap (fun j => d j (shortfall r size j))),
            (List.range J).map (shortfall r size)) ∧
      (∀ j, shortfall r size j
        = size - ((((List.range j).flatMap (fun i => d i (shortfall r size i))).length : Nat) : Int)) ∧
      (J : Int) ≤ max r.retryCount 0 ∧
      (0 < r.retryCount → 0 < J) ∧
      (∀ j, 0 < j → j < J →
        ((((List.range j).flatMap (fun i => d i (shortfall r size i))).length : Nat) : Int) < size) ∧
      ((J : Int) < r.retryCount →
        size ≤ ((((List.range J).flatMap (fun i => d i (shortfall r size i))).length : Nat) : Int)) ∧
      (r.retryCount ≤ 0 → r.run size = (.ok [], [])) := by
  obtain ⟨J, hJ, hpos, hbelow, hstop, hrun⟩ := RetryRecommend.run_success r size d hok
  have hacc := accumulated_eq_flatMap r size d hok
  refine ⟨J, ?_, ?_, by omega, fun h => hpos (by omega), ?_, ?_, ?_⟩
  · rw [hrun, hacc]
  · intro j
    rw [← hacc]
    rfl
  · intro j h0 hj
    rw [← hacc]
    exact hbelow j h0 hj
  · intro h
    rw [← hacc]
    exact hstop (by omega)
  · intro h
    have hJ0 : J = 0 := by omega
    rw [hrun, hJ0]
    rfl

theorem Retry_shortfall_calls_witness :
    ∃ J, (NewRetryRecommend (fun _ _ => (.ok [7, 7, 7] : Outcome String (List Int))) 4).run 10
        = (.ok ((List.range J).flatMap (fun _ => [7, 7, 7])),
            (List.range J).map
              (shortfall (NewRetryRecommend
                (fun _ _ => (.ok [7, 7, 7] : Outcome String (List Int))) 4) 10)) ∧
      0 < J := by
  obtain ⟨J, hrun, _, _, hpos, _⟩ := Retry_shortfall_calls
    (NewRetryRecommend (fun _ _ => (.ok [7, 7, 7] : Outcome String (List Int))) 4)
    10 (fun _ _ => [7, 7, 7]) (fun _ _ => rfl)
  exact ⟨J, hrun, hpos (by decide)⟩


theorem Recommend.Fetch_length_le {ε : Type} (m : Recommend ε) (sh : Shuffles) (size : Int)
    (result : List Int) (hsize : 0 ≤ size) (h : m.Fetch sh size = .ok result) :
    (result.length : Int) ≤ size := by
  unfold Recommend.Fetch at h
  split at h
  · cases h
  · split at h
    · cases h; simpa using hsize
    · split at h
      · cases h
      · split at h
        · cases h; simpa using hsize
        · split at h
          · cases h
          · split at h
            · cases h
            · rename_i post _
              rw [(sliceTo_of_nonneg (Flat post) size hsize).1] at h
              cases h
              rw [(sliceTo_of_nonneg (ε := ε) (Flat post) size hsize).2]
              exact min_le_left _ _

/-- C20: for `size ≥ 0`, a `RetryRecommend` around a recommender that never
fails and never returns more items than the non-negative count it is asked for
returns at most `size` items; the base `Recommend.Fetch` is such a recommender. -/
theorem Retry_at_most_size {ε : Type} (r : RetryRecommend ε) (size : Int)
    (d : Nat → Int → List Int) (hsize : 0 ≤ size)
    (hok : ∀ i n, r.Recommender i n = .ok (d i n))
    (hle : ∀ i n, 0 ≤ n → ((d i n).length : Int) ≤ n) :
    (∃ result, r.Fetch size = .ok result ∧ (result.length : Int) ≤ size) ∧
      ∀ (m : Recommend ε) (sh : Shuffles) (n : Int) (fetch : List Int), 0 ≤ n →
        m.Fetch sh n = .ok fetch → (fetch.length : Int) ≤ n := by
  refine ⟨?_, fun m sh n fetch hn h => Recommend.Fetch_length_le m sh n fetch hn h⟩
  obtain ⟨J, _, _, hbelow, _, hrun⟩ := RetryRecommend.run_success r size d hok
  refine ⟨accumulated r size J, by rw [RetryRecommend.Fetch, hrun], ?_⟩
  cases J with
  | zero => simpa [accumulated] using hsize
  | succ j =>
    have hprev : ((accumulated r size j).length : Int) ≤ size := by
      cases j with
      | zero => simpa [accumulated] using hsize
      | succ i => exact le_of_lt (hbelow (i + 1) (by omega) (by omega))
    have hsf : shortfall r size j = size - ((accumulated r size j).length : Int) := rfl
    have hd := hle j (shortfall r size j) (by omega)
    rw [accumulated_succ r size d hok, List.length_append]
    push_cast
    omega

theorem Retry_at_most_size_witness :
    (0 : Int) ≤ 5 ∧
      ∃ result,
        (NewRetryRecommend
          (fun _ n => (.ok (List.replicate (min n 2).toNat 7) : Outcome String (List Int))) 4).Fetch 5
          = .ok result ∧ (result.length : Int) ≤ 5 :=
  ⟨by decide,
    (Retry_at_most_size
      (NewRetryRecommend
        (fun _ n => (.ok (List.replicate (min n 2).toNat 7) : Outcome String (List Int))) 4)
      5 (fun _ n => List.replicate (min n 2).toNat 7) (by decide) (fun _ _ => rfl)
      (fun _ n hn => by
        rw [List.length_replicate]
        have : min n 2 ≤ n := min_le_left _ _
        have : 0 ≤ min n 2 := le_min hn (by decide)
        omega)).1⟩


/-! ## `NoAnchorErrRecommend.Fetch` and `MemoryRecommend.Fetch` -/

/-- C15: with designated error `e`, `NoAnchorErrRecommend.Fetch` returns the
error of the wrapped `Fetch` unchanged when that fails, the error `e` and no
result when it succeeds with an empty result, and the result unchanged with no
error when it succeeds with a non-empty result. -/
theorem NoAnchorErr_escalates {ε : Type} (f : NoAnchorErrRecommend ε) (sh : Shuffles)
    (size : Int) (e : ε) (he : f.err = some e) :
    (∀ e2, f.Recommend.Fetch sh size = .err e2 → f.Fetch sh size = .err e2) ∧
      (f.Recommend.Fetch sh size = .ok [] → f.Fetch sh size = .err e) ∧
      (∀ fetch, fetch ≠ [] → f.Recommend.Fetch sh size = .ok fetch →
        f.Fetch sh size = .ok fetch) := by
  refine ⟨?_, ?_, ?_⟩
  · intro e2 h
    simp [NoAnchorErrRecommend.Fetch, h]
  · intro h
    simp [NoAnchorErrRecommend.Fetch, h, he]
  · intro fetch hne h
    simp [NoAnchorErrRecommend.Fetch, h, hne]

theorem NoAnchorErr_escalates_witness :
    (NewNoAnchorErrRecommend 0 (.ok []) [isOddUser] [BiggerGroup] []
        (some "no anchors")).Fetch Shuffles.identity 5
      = (.err "no anchors" : Outcome String (List Int)) :=
  (NoAnchorErr_escalates
    (NewNoAnchorErrRecommend 0 (.ok []) [isOddUser] [BiggerGroup] [] (some "no anchors"))
    Shuffles.identity 5 "no anchors" rfl).2.1 rfl

theorem MemoryRecommend.members_map (now : Nat → Int) (result : List Int) :
    ∀ (i : Nat) (zsetMembers : List Z),
      (MemoryRecommend.members now result i zsetMembers).map Z.Member
        = zsetMembers.map Z.Member ++ result := by
  induction result with
  | nil => intro i z; simp [MemoryRecommend.members]
  | cons a result ih => intro i z; simp [MemoryRecommend.members, ih]

/-- C16: a `MemoryRecommend` with a store client returns the error of the wrapped
`Fetch` and calls the store not at all when that fails, returns the empty result
with no store call when that is empty, and on a non-empty result makes one
`ZAdd` call under `MemoryKey` with the returned identifiers in order, returning
the result when the call succeeds and the store error with no result when it
fails. -/
theorem Memory_records {ε : Type} (m : MemoryRecommend ε) (now : Nat → Int) (size : Int)
    (cli : StoreClient ε) (hcli : m.redisCli = some cli) :
    (∀ e, m.Recommender size = .err e → m.run now size = (.err e, [])) ∧
      (m.Recommender size = .ok [] → m.run now size = (.ok [], [])) ∧
      (∀ result, result ≠ [] → m.Recommender size = .ok result →
        ∃ members, members.map Z.Member = result ∧
          (cli m.MemoryKey members = none →
            m.run now size = (.ok result, [(m.MemoryKey, members)])) ∧
          (∀ e, cli m.MemoryKey members = some e →
            m.run now size = (.err e, [(m.MemoryKey, members)]))) := by
  refine ⟨?_, ?_, ?_⟩
  · intro e h
    simp [MemoryRecommend.run, h]
  · intro h
    simp [MemoryRecommend.run, h, MemoryRecommend.members]
  · intro result hne h
    have hmap := MemoryRecommend.members_map now result 0 []
    have hlen : (MemoryRecommend.members now result 0 []).length ≠ 0 := by
      intro h0
      have := congrArg List.length hmap
      rw [List.length_map, h0] at this
      simp at this
      exact hne (List.length_eq_zero.mp this.symm)
    refine ⟨MemoryRecommend.members now result 0 [], by simpa using hmap, ?_, ?_⟩
    · intro hs
      simp [MemoryRecommend.run, h, hlen, hcli, hs]
    · intro e hs
      simp [MemoryRecommend.run, h, hlen, hcli, hs]

theorem Memory_records_witness :
    ∃ members, members.map Z.Member = [1, 2] ∧
      ({ Recommender := fun _ => .ok [1, 2], redisCli := some (fun _ _ => some "down"),
          MemoryKey := "recommender:memory" } : MemoryRecommend String).run (fun _ => 0) 5
        = (.err "down", [("recommender:memory", members)]) := by
  obtain ⟨members, hmap, _, herr⟩ := (Memory_records
    ({ Recommender := fun _ => .ok [1, 2], redisCli := some (fun _ _ => some "down"),
        MemoryKey := "recommender:memory" } : MemoryRecommend String)
    (fun _ => 0) 5 (fun _ _ => some "down") rfl).2.2 [1, 2] (by decide) rfl
  exact ⟨members, hmap, herr "down" rfl⟩

/-- C17: a decorator built by `NewMemoryRecommend` has no store client, so a
non-empty result of the wrapped `Fetch` makes its `Fetch` stop with a nil
pointer dereference at `m.redisCli.ZAdd`, with no append made. -/
theorem NewMemoryRecommend_fault :
    (NewMemoryRecommend (fun _ => (.ok [1] : Outcome String (List Int)))).run (fun _ => 0) 1
      = (.fault, []) := by
  decide

/-- C19: with zero predicate sets `GroupsHierarchical` returns the input as its
one group, so flattening gives back the input in its order, and the
post-grouping pass of a `Recommend` with no post-sorters returns the flattened
sequence as its one group. -/
theorem GroupsHierarchical_no_sets {T ε : Type} (slice : List T) (userid : Int)
    (recaller : Recaller ε) (filterRules : List (FilterRule ε)) (sorters : List (Sorter ε))
    (anchors : List Int) :
    GroupsHierarchical ([] : List (NamedPredicate T)) slice = [slice] ∧
      Flat (GroupsHierarchical ([] : List (NamedPredicate T)) slice) = slice ∧
      (NewRecommend userid recaller filterRules sorters []).PostSort anchors = .ok [anchors] ∧
      Flat [anchors] = anchors := by
  refine ⟨rfl, by simp [GroupsHierarchical, Flat], ?_, by simp [Flat]⟩
  simp [Recommend.PostSort, NewRecommend, collectPredicates, GroupsHierarchical]


/-! ## Error propagation and data preservation of `Recommend.Fetch` -/

theorem collectPredicates_of_failure {ε : Type} (anchors : List Int) (sorters : List (Sorter ε))
    (e : ε) : ∀ predicates, firstFailure anchors sorters = some e →
      collectPredicates anchors sorters predicates = .error e := by
  induction sorters with
  | nil => intro _ h; simp [firstFailure] at h
  | cons s sorters ih =>
    intro predicates h
    simp only [firstFailure] at h
    simp only [collectPredicates]
    cases hs : s anchors with
    | error e2 =>
      rw [hs] at h
      simp only [Option.some.injEq] at h
      rw [h]
    | ok p =>
      rw [hs] at h
      exact ih _ h

theorem collectPredicates_of_no_failure {ε : Type} (anchors : List Int)
    (sorters : List (Sorter ε)) : ∀ predicates, firstFailure anchors sorters = none →
      ∃ results, collectPredicates anchors sorters predicates = .ok results := by
  induction sorters with
  | nil => intro predicates _; exact ⟨predicates, rfl⟩
  | cons s sorters ih =>
    intro predicates h
    simp only [firstFailure] at h
    simp only [collectPredicates]
    cases hs : s anchors with
    | error e2 => rw [hs] at h; simp at h
    | ok p =>
      rw [hs] at h
      exact ih _ h

theorem Recommend.GroupSort_error_iff {ε : Type} (m : Recommend ε) (anchors : List Int) (e : ε) :
    m.GroupSort anchors = .error e ↔ firstFailure anchors m.Sorts = some e := by
  unfold Recommend.GroupSort
  cases hf : firstFailure anchors m.Sorts with
  | none =>
    obtain ⟨results, hr⟩ := collectPredicates_of_no_failure anchors m.Sorts [] hf
    simp [hr]
  | some e2 =>
    rw [collectPredicates_of_failure anchors m.Sorts e2 [] hf]
    simp

theorem Recommend.PostSort_error_iff {ε : Type} (m : Recommend ε) (anchors : List Int) (e : ε) :
    m.PostSort anchors = .error e ↔ firstFailure anchors m.PostSorts = some e := by
  unfold Recommend.PostSort
  cases hf : firstFailure anchors m.PostSorts with
  | none =>
    obtain ⟨results, hr⟩ := collectPredicates_of_no_failure anchors m.PostSorts [] hf
    simp [hr]
  | some e2 =>
    rw [collectPredicates_of_failure anchors m.PostSorts e2 [] hf]
    simp

/-- C11: for `size ≥ 0`, `Recommend.Fetch` returns an error exactly when a
collaborator it invokes fails, and then that error: the recaller's, otherwise
the filter chain's, otherwise that of the first failing sorter on the filtered
list, otherwise that of the first failing post-sorter on the flattened list. In
every other case it returns a result with no error; an empty recall and an empty
filtered list give the empty result whatever the sorters are. -/
theorem Fetch_error_iff {ε : Type} (m : Recommend ε) (sh : Shuffles) (size : Int)
    (hsize : 0 ≤ size) :
    (∀ e, m.Fetch sh size = .err e ↔
        (m.Recaller = .error e ∨
          ∃ anchors, m.Recaller = .ok anchors ∧ anchors ≠ [] ∧
            (m.Filter (sh.recalled anchors) = .error e ∨
              ∃ filtered, m.Filter (sh.recalled anchors) = .ok filtered ∧ filtered ≠ [] ∧
                (firstFailure filtered m.Sorts = some e ∨
                  ∃ groups, m.GroupSort filtered = .ok groups ∧
                    firstFailure (Flat (shuffleGroups sh 0 groups)) m.PostSorts = some e)))) ∧
      ((∃ e, m.Fetch sh size = .err e) ∨ ∃ result, m.Fetch sh size = .ok result) ∧
      (m.Recaller = .ok [] → m.Fetch sh size = .ok []) ∧
      (∀ anchors, m.Recaller = .ok anchors → m.Filter (sh.recalled anchors) = .ok [] →
        m.Fetch sh size = .ok []) := by
  refine ⟨?_, ?_, ?_, ?_⟩
  · intro e
    unfold Recommend.Fetch
    cases hr : m.Recaller with
    | error e0 => simp
    | ok anchors =>
      by_cases ha : anchors = []
      · simp [ha]
      · cases hf : m.Filter (sh.recalled anchors) with
        | error e1 => simp [ha, hf]
        | ok filtered =>
          by_cases hfe : filtered = []
          · simp [ha, hf, hfe]
          · cases hg : m.GroupSort filtered with
            | error e2 =>
              have := (Recommend.GroupSort_error_iff m filtered e2).mp hg
              simp [ha, hf, hg, hfe, this]
            | ok groups =>
              have hnone : ∀ e3, firstFailure filtered m.Sorts ≠ some e3 := by
                intro e3 h3
                rw [(Recommend.GroupSort_error_iff m filtered e3).mpr h3] at hg
                cases hg
              cases hp : m.PostSort (Flat (shuffleGroups sh 0 groups)) with
              | error e4 =>
                have := (Recommend.PostSort_error_iff m _ e4).mp hp
                simp [ha, hf, hg, hp, hfe, hnone, this]
              | ok post =>
                have hnone2 : ∀ e5,
                    firstFailure (Flat (shuffleGroups sh 0 groups)) m.PostSorts ≠ some e5 := by
                  intro e5 h5
                  rw [(Recommend.PostSort_error_iff m _ e5).mpr h5] at hp
                  cases hp
                simp [ha, hf, hg, hp, hfe, hnone, hnone2,
                  (sliceTo_of_nonneg (Flat post) size hsize).1]
  · unfold Recommend.Fetch
    cases m.Recaller with
    | error e0 => exact Or.inl ⟨e0, rfl⟩
    | ok anchors =>
      simp only
      split
      · exact Or.inr ⟨[], rfl⟩
      · cases m.Filter (sh.recalled anchors) with
        | error e1 => exact Or.inl ⟨e1, rfl⟩
        | ok filtered =>
          simp only
          split
          · exact Or.inr ⟨[], rfl⟩
          · cases m.GroupSort filtered with
            | error e2 => exact Or.inl ⟨e2, rfl⟩
            | ok groups =>
              simp only
              cases m.PostSort (Flat (shuffleGroups sh 0 groups)) with
              | error e4 => exact Or.inl ⟨e4, rfl⟩
              | ok post => exact Or.inr ⟨_, (sliceTo_of_nonneg (Flat post) size hsize).1⟩
  · intro h
    simp [Recommend.Fetch, h]
  · intro anchors hr hf
    unfold Recommend.Fetch
    by_cases ha : anchors = []
    · simp [hr, ha]
    · simp [hr, ha, hf]


theorem Fetch_error_iff_witness :
    (0 : Int) ≤ 5 ∧
      (NewRecommend 0 MatchRecaller [isOddUser] [BiggerGroup, fun _ => .error "sort"]
          [fun _ => .error "post"]).Fetch Shuffles.identity 5
        = (.err "sort" : Outcome String (List Int)) :=
  ⟨by decide,
    ((Fetch_error_iff
      (NewRecommend 0 MatchRecaller [isOddUser] [BiggerGroup, fun _ => .error "sort"]
        [fun _ => .error "post"])
      Shuffles.identity 5 (by decide)).1 "sort").mpr
      (Or.inr ⟨[1, 2, 3, 4, 5, 6, 7, 8, 9, 10, 101, 201, 301, 401, 500, 601, 700, 800, 991, 1000],
        rfl, by decide,
        Or.inr ⟨[1, 3, 5, 7, 9, 101, 201, 301, 401, 601, 991], rfl, by decide, Or.inl rfl⟩⟩)⟩

theorem shuffleGroups_flatten_perm (sh : Shuffles) (hgroup : ∀ i l, (sh.group i l).Perm l)
    (groups : List (List Int)) :
    ∀ i, (shuffleGroups sh i groups).flatten.Perm groups.flatten := by
  induction groups with
  | nil => intro i; simp [shuffleGroups]
  | cons g groups ih =>
    intro i
    simp only [shuffleGroups, List.flatten_cons]
    exact (hgroup i g).append (ih (i + 1))

theorem GroupsHierarchical_flatten_subperm {T : Type} (sets : List (NamedPredicate T))
    (slice : List T) : (GroupsHierarchical sets slice).flatten.Subperm slice :=
  (GroupsHierarchical_flatten_perm sets slice).subperm.trans (List.filter_sublist _).subperm

theorem Recommend.GroupSort_flatten_subperm {ε : Type} (m : Recommend ε)
    (anchors : List Int) (groups : List (List Int)) (h : m.GroupSort anchors = .ok groups) :
    groups.flatten.Subperm anchors := by
  unfold Recommend.GroupSort at h
  split at h
  · cases h
  · cases h
    exact GroupsHierarchical_flatten_subperm _ _

theorem Recommend.PostSort_flatten_subperm {ε : Type} (m : Recommend ε)
    (anchors : List Int) (groups : List (List Int)) (h : m.PostSort anchors = .ok groups) :
    groups.flatten.Subperm anchors := by
  unfold Recommend.PostSort at h
  split at h
  · cases h
  · cases h
    exact GroupsHierarchical_flatten_subperm _ _

/-- C18: for `size ≥ 0`, every outcome of the shuffles and rules and sorters that
succeed, the list returned by `Recommend.Fetch` is a sub-multiset of the list
produced by the filter chain: every returned identifier occurs in the filtered
candidates, none is returned more often than it occurs there, and the returned
list is no longer than the filtered one. -/
theorem Fetch_submultiset {ε : Type} (m : Recommend ε) (sh : Shuffles) (size : Int)
    (anchors filtered : List Int) (groups post : List (List Int))
    (hsize : 0 ≤ size) (hsh : sh.Valid)
    (hrecall : m.Recaller = .ok anchors)
    (hfilter : m.Filter (sh.recalled anchors) = .ok filtered)
    (hgroup : m.GroupSort filtered = .ok groups)
    (hpost : m.PostSort (Flat (shuffleGroups sh 0 groups)) = .ok post) :
    ∃ result, m.Fetch sh size = .ok result ∧ result.Subperm filtered ∧
      (∀ x ∈ result, x ∈ filtered) ∧ (∀ x, result.count x ≤ filtered.count x) ∧
      result.length ≤ filtered.length := by
  have key : ∃ result, m.Fetch sh size = .ok result ∧ result.Subperm filtered := by
    by_cases h : anchors = [] ∨ filtered = []
    · exact ⟨[], Recommend.Fetch_of_empty m sh size anchors filtered hrecall hfilter h,
        List.nil_subperm⟩
    · rw [not_or] at h
      refine ⟨_, (Recommend.Fetch_of_success m sh size anchors filtered groups post hrecall h.1
        hfilter h.2 hgroup hpost).trans (sliceTo_of_nonneg (Flat post) size hsize).1, ?_⟩
      have h1 : (Flat post).Subperm (Flat (shuffleGroups sh 0 groups)) := by
        rw [Flat_eq_flatten]
        exact Recommend.PostSort_flatten_subperm m _ post hpost
      have h2 : (Flat (shuffleGroups sh 0 groups)).Subperm filtered := by
        rw [Flat_eq_flatten]
        exact (shuffleGroups_flatten_perm sh hsh.2 groups 0).subperm.trans
          (Recommend.GroupSort_flatten_subperm m filtered groups hgroup)
      exact ((List.take_sublist _ _).subperm.trans h1).trans h2
  obtain ⟨result, hres, hsub⟩ := key
  exact ⟨result, hres, hsub, fun x hx => hsub.subset hx, fun x => hsub.count_le x,
    hsub.length_le⟩

theorem Fetch_submultiset_witness :
    (0 : Int) ≤ 3 ∧ Shuffles.identity.Valid ∧
      ∃ result, (Builder.Build : Recommend String).Fetch Shuffles.identity 3 = .ok result ∧
        result.Subperm [1, 3, 5, 7, 9, 101, 201, 301, 401, 601, 991] := by
  obtain ⟨result, hres, hsub, _⟩ := Fetch_submultiset (Builder.Build : Recommend String)
    Shuffles.identity 3
    [1, 2, 3, 4, 5, 6, 7, 8, 9, 10, 101, 201, 301, 401, 500, 601, 700, 800, 991, 1000]
    [1, 3, 5, 7, 9, 101, 201, 301, 401, 601, 991]
    [[101, 201, 301, 401, 601, 991], [1, 3, 5, 7, 9], []]
    [[101, 201, 301, 401, 601, 991, 1, 3, 5, 7, 9]]
    (by decide) Shuffles.identity_valid rfl rfl rfl rfl
  exact ⟨by decide, Shuffles.identity_valid, result, hres, hsub⟩

end recommend
